import Mathlib

/-!
Verification of the TrueVault JavaScript SDK client (`index.js`) against its
natural-language specification.

The development shallowly embeds the parts of the SDK the claims are about:

* `JsVal` — the JSON/JavaScript value universe the SDK shuttles around
  (numbers restricted to integers: the SDK never computes with numbers, and
  floating point is out of scope for the embedding).
* a JSON codec faithful to what the SDK relies on from the platform:
  `jsonStringify` mirrors `JSON.stringify` (no extra whitespace, JS escaping
  rules) and `jsonParse` mirrors `JSON.parse` restricted to the
  whitespace-free integer-number subset (which covers every text the SDK
  itself produces).
* a model of the `base-64` npm package (`base64encode` / `base64decode`),
  including its throw on input outside the Latin1 range (`Option.none`
  models the thrown error).
* the client state (`ClientState`), the constructor (`mkClient`), the
  `accessToken` getter, `logout`, the `Authorization`-header injection
  performed by `performLegacyRequest`, the response-envelope classification
  of `performLegacyRequest` and of `performLegacyRequestWithProgress`
  (json response type), `getDocuments`, and the `attributes`
  post-processing of `readCurrentUser`.
-/

namespace TVS

/-- Universe of JSON values as the SDK sees them. Objects are association
lists in insertion order (matching JS object/`JSON.parse` ordering); numbers
are modelled as integers. -/
inductive JsVal where
  | null
  | bool (b : Bool)
  | num (n : Int)
  | str (s : String)
  | arr (elems : List JsVal)
  | obj (fields : List (String × JsVal))
deriving Repr

/-- Left and right curly-brace characters (kept out of literals). -/
def lbrace : Char := Char.ofNat 123

/-- Right curly brace. -/
def rbrace : Char := Char.ofNat 125

/-- JS property read `v[k]`: the field of an object, `none` (undefined)
otherwise. Reads on `null` are special-cased by callers, which model the
TypeError JS throws there. -/
def getField (v : JsVal) (k : String) : Option JsVal :=
  match v with
  | .obj fields => fields.lookup k
  | _ => none

/-- JS property write `v[k] = x` on an object: replaces the value in place if
the key exists (JS objects cannot hold a key twice), appends otherwise. -/
def setField (v : JsVal) (k : String) (x : JsVal) : JsVal :=
  match v with
  | .obj fields =>
      if (fields.lookup k).isSome then
        .obj (fields.map (fun p => if p.1 = k then (p.1, x) else p))
      else
        .obj (fields ++ [(k, x)])
  | other => other

/-- JS truthiness of a value (`NaN` does not arise: numbers are integers). -/
def truthy : JsVal → Bool
  | .null => false
  | .bool b => b
  | .num n => n != 0
  | .str s => s ≠ ""
  | .arr _ => true
  | .obj _ => true

/-- JS string coercion `String(v)` for the values the SDK concatenates into
headers and paths (objects/arrays do not occur there). -/
def jsString : JsVal → String
  | .null => "null"
  | .bool true => "true"
  | .bool false => "false"
  | .num n => toString n
  | .str s => s
  | .arr _ => ""
  | .obj _ => "[object Object]"

/-- Decimal digit character for `d < 10`. -/
def digitChar (d : Nat) : Char := Char.ofNat (48 + d)

/-- Is `c` a decimal digit. -/
def isDigitCh (c : Char) : Bool := 48 ≤ c.toNat && c.toNat ≤ 57

/-- Division-by-ten digit recursion, structural on a fuel bound so that it
evaluates definitionally. -/
def natCharsAux : Nat → Nat → List Char
  | 0, _ => []
  | fuel + 1, n =>
      if n < 10 then [digitChar n]
      else natCharsAux fuel (n / 10) ++ [digitChar (n % 10)]

/-- Decimal digit characters of a natural number, most significant first,
exactly as `JSON.stringify` renders a non-negative integer. -/
def natChars (n : Nat) : List Char := natCharsAux (n + 1) n

/-- Characters of an integer: optional minus sign, then decimal digits. -/
def intChars (i : Int) : List Char :=
  if i < 0 then '-' :: natChars i.natAbs else natChars i.natAbs

/-- Lower-case hexadecimal digit character for `d < 16`. -/
def hexChar (d : Nat) : Char :=
  if d < 10 then Char.ofNat (48 + d) else Char.ofNat (87 + d)

/-- JS `JSON.stringify` escaping of one string character: `"` and `\` get a
backslash, the five control characters with short forms use them, any other
control character becomes a `\u00xx` escape, everything else is untouched. -/
def quoteChar (c : Char) : List Char :=
  if c = '"' then ['\\', '"']
  else if c = '\\' then ['\\', '\\']
  else if c.toNat = 8 then ['\\', 'b']
  else if c.toNat = 9 then ['\\', 't']
  else if c.toNat = 10 then ['\\', 'n']
  else if c.toNat = 12 then ['\\', 'f']
  else if c.toNat = 13 then ['\\', 'r']
  else if c.toNat < 32 then
    ['\\', 'u', '0', '0', hexChar (c.toNat / 16), hexChar (c.toNat % 16)]
  else [c]

/-- Escape every character of a string body. -/
def quoteChars : List Char → List Char
  | [] => []
  | c :: cs => quoteChar c ++ quoteChars cs

/-- A JSON string literal: quote, escaped body, quote. -/
def quoteStr (s : String) : List Char :=
  '"' :: (quoteChars s.data ++ ['"'])

mutual

/-- Characters of `JSON.stringify v` (no added whitespace, keys in insertion
order — exactly the JS builtin on the integer-number subset). -/
def stringifyVal : JsVal → List Char
  | .null => 'n' :: 'u' :: 'l' :: ['l']
  | .bool true => 't' :: 'r' :: 'u' :: ['e']
  | .bool false => 'f' :: 'a' :: 'l' :: 's' :: ['e']
  | .num n => intChars n
  | .str s => quoteStr s
  | .arr es => '[' :: (stringifyElems es ++ [']'])
  | .obj ms => lbrace :: (stringifyMembers ms ++ [rbrace])

/-- Comma-separated renderings of array elements. -/
def stringifyElems : List JsVal → List Char
  | [] => []
  | [e] => stringifyVal e
  | e :: e2 :: es => stringifyVal e ++ ',' :: stringifyElems (e2 :: es)

/-- Comma-separated `"key":value` renderings of object members. -/
def stringifyMembers : List (String × JsVal) → List Char
  | [] => []
  | [(k, v)] => quoteStr k ++ ':' :: stringifyVal v
  | (k, v) :: m2 :: ms =>
      quoteStr k ++ ':' :: stringifyVal v ++ ',' :: stringifyMembers (m2 :: ms)

end

/-- Model of the platform `JSON.stringify` on the embedded value universe. -/
def jsonStringify (v : JsVal) : String := String.mk (stringifyVal v)

/-- Value of a hexadecimal digit character, if it is one. -/
def hexVal (c : Char) : Option Nat :=
  if 48 ≤ c.toNat && c.toNat ≤ 57 then some (c.toNat - 48)
  else if 97 ≤ c.toNat && c.toNat ≤ 102 then some (c.toNat - 87)
  else if 65 ≤ c.toNat && c.toNat ≤ 70 then some (c.toNat - 55)
  else none

/-- The character a short JSON escape stands for. -/
def unescapeChar (c : Char) : Option Char :=
  if c = '"' then some '"'
  else if c = '\\' then some '\\'
  else if c = '/' then some '/'
  else if c = 'b' then some (Char.ofNat 8)
  else if c = 't' then some (Char.ofNat 9)
  else if c = 'n' then some (Char.ofNat 10)
  else if c = 'f' then some (Char.ofNat 12)
  else if c = 'r' then some (Char.ofNat 13)
  else none

/-- Parse a JSON string body after the opening quote; `acc` holds the
characters read so far, in reverse. -/
def parseStrBody : List Char → List Char → Option (List Char × List Char)
  | acc, '"' :: r => some (acc.reverse, r)
  | acc, '\\' :: 'u' :: h1 :: h2 :: h3 :: h4 :: r =>
      match hexVal h1, hexVal h2, hexVal h3, hexVal h4 with
      | some a, some b, some c, some d =>
          parseStrBody (Char.ofNat (((a * 16 + b) * 16 + c) * 16 + d) :: acc) r
      | _, _, _, _ => none
  | acc, '\\' :: e :: r =>
      match unescapeChar e with
      | some c => parseStrBody (c :: acc) r
      | none => none
  | acc, c :: r => parseStrBody (c :: acc) r
  | _, [] => none

/-- Split off the leading run of decimal digits. -/
def takeDigitRun : List Char → List Char × List Char
  | [] => ([], [])
  | c :: cs =>
      if isDigitCh c then
        let p := takeDigitRun cs
        (c :: p.1, p.2)
      else ([], c :: cs)

/-- Numeric value of a digit run. -/
def digitRunVal (ds : List Char) : Nat :=
  ds.foldl (fun a c => a * 10 + (c.toNat - 48)) 0

/-- Parse a non-negative decimal integer (at least one digit required). -/
def parseNatNum (cs : List Char) : Option (Nat × List Char) :=
  match takeDigitRun cs with
  | ([], _) => none
  | (ds, r) => some (digitRunVal ds, r)

mutual

/-- Fuel-indexed JSON value parser (model of `JSON.parse` on the
whitespace-free integer-number subset: everything the SDK itself emits). -/
def parseValF : Nat → List Char → Option (JsVal × List Char)
  | 0, _ => none
  | _ + 1, [] => none
  | fuel + 1, c :: r =>
      if c = 'n' then
        match r with
        | 'u' :: 'l' :: 'l' :: r1 => some (.null, r1)
        | _ => none
      else if c = 't' then
        match r with
        | 'r' :: 'u' :: 'e' :: r1 => some (.bool true, r1)
        | _ => none
      else if c = 'f' then
        match r with
        | 'a' :: 'l' :: 's' :: 'e' :: r1 => some (.bool false, r1)
        | _ => none
      else if c = '"' then
        match parseStrBody [] r with
        | some (body, r1) => some (.str (String.mk body), r1)
        | none => none
      else if c = '[' then
        match r with
        | [] => none
        | c2 :: r2 =>
            if c2 = ']' then some (.arr [], r2)
            else
              match parseElemsF fuel (c2 :: r2) with
              | some (es, r1) => some (.arr es, r1)
              | none => none
      else if c = lbrace then
        match r with
        | [] => none
        | c2 :: r2 =>
            if c2 = rbrace then some (.obj [], r2)
            else
              match parseMembersF fuel (c2 :: r2) with
              | some (ms, r1) => some (.obj ms, r1)
              | none => none
      else if c = '-' then
        match parseNatNum r with
        | some (n, r1) => some (.num (-(n : Int)), r1)
        | none => none
      else if isDigitCh c then
        match parseNatNum (c :: r) with
        | some (n, r1) => some (.num (n : Int), r1)
        | none => none
      else none

/-- One-or-more comma-separated array elements, consuming the closing `]`. -/
def parseElemsF : Nat → List Char → Option (List JsVal × List Char)
  | 0, _ => none
  | fuel + 1, cs =>
      match parseValF fuel cs with
      | some (v, r) =>
          match r with
          | [] => none
          | c :: r1 =>
              if c = ',' then
                match parseElemsF fuel r1 with
                | some (vs, r2) => some (v :: vs, r2)
                | none => none
              else if c = ']' then some ([v], r1)
              else none
      | none => none

/-- One-or-more comma-separated object members, consuming the closing brace. -/
def parseMembersF : Nat → List Char → Option (List (String × JsVal) × List Char)
  | 0, _ => none
  | fuel + 1, cs =>
      match cs with
      | '"' :: r =>
          (match parseStrBody [] r with
           | some (key, r1) =>
               (match r1 with
                | ':' :: r2 =>
                    (match parseValF fuel r2 with
                     | some (v, r3) =>
                         (match r3 with
                          | [] => none
                          | c :: r4 =>
                              if c = ',' then
                                match parseMembersF fuel r4 with
                                | some (ms, r5) => some ((String.mk key, v) :: ms, r5)
                                | none => none
                              else if c = rbrace then some ([(String.mk key, v)], r4)
                              else none)
                     | none => none)
                | _ => none)
           | none => none)
      | _ => none

end

/-- Model of the platform `JSON.parse` (restricted as `parseValF` notes):
`none` models a thrown `SyntaxError`. The whole text must be consumed. -/
def jsonParse (s : String) : Option JsVal :=
  match parseValF (s.data.length + 1) s.data with
  | some (v, []) => some v
  | _ => none

/-- Input that cannot extend a decimal digit run: empty, or headed by a
non-digit. Every separator the stringifier emits after a number qualifies. -/
def stopsNum : List Char → Bool
  | [] => true
  | c :: _ => !isDigitCh c

theorem digitChar_spec (d : Nat) (hd : d < 10) :
    isDigitCh (digitChar d) = true ∧ (digitChar d).toNat = 48 + d := by
  interval_cases d <;> exact ⟨by decide, by decide⟩

theorem natCharsAux_fuel (n : Nat) : ∀ fuel, n < fuel →
    natCharsAux fuel n = natChars n := by
  induction n using Nat.strong_induction_on with
  | _ n ih =>
    intro fuel hf
    match fuel, hf with
    | fuel + 1, hf =>
        rw [natChars, natCharsAux, natCharsAux]
        by_cases h10 : n < 10
        · rw [if_pos h10, if_pos h10]
        · rw [if_neg h10, if_neg h10]
          congr 1
          rw [ih (n / 10) (Nat.div_lt_self (by omega) (by omega)) fuel (by omega),
            ih (n / 10) (Nat.div_lt_self (by omega) (by omega)) n (by omega)]

theorem natChars_unfold (n : Nat) :
    natChars n = (if n < 10 then [] else natChars (n / 10)) ++ [digitChar (n % 10)] := by
  rw [natChars, natCharsAux]
  by_cases h : n < 10
  · rw [if_pos h, if_pos h, List.nil_append, Nat.mod_eq_of_lt h]
  · rw [if_neg h, if_neg h]
    congr 1
    exact natCharsAux_fuel (n / 10) n (by
      have := Nat.div_lt_self (show 0 < n by omega) (show 1 < 10 by omega)
      omega)

theorem natChars_all_digit (n : Nat) : ∀ c ∈ natChars n, isDigitCh c = true := by
  induction n using Nat.strong_induction_on with
  | _ n ih =>
    rw [natChars_unfold]
    intro c hc
    rcases List.mem_append.mp hc with h | h
    · by_cases h10 : n < 10
      · simp [h10] at h
      · exact ih (n / 10) (Nat.div_lt_self (by omega) (by omega)) c (by simpa [h10] using h)
    · rw [List.mem_singleton] at h
      subst h
      exact (digitChar_spec _ (Nat.mod_lt _ (by omega))).1

theorem natChars_ne_nil (n : Nat) : natChars n ≠ [] := by
  rw [natChars_unfold]; simp

theorem natChars_head (n : Nat) :
    ∃ c t, natChars n = c :: t ∧ isDigitCh c = true := by
  match h : natChars n with
  | [] => exact absurd h (natChars_ne_nil n)
  | c :: t => exact ⟨c, t, rfl, natChars_all_digit n c (h ▸ List.mem_cons_self ..)⟩

theorem digitRunVal_append_digit (ds : List Char) (d : Nat) (hd : d < 10) :
    digitRunVal (ds ++ [digitChar d]) = digitRunVal ds * 10 + d := by
  simp only [digitRunVal, List.foldl_append, List.foldl_cons, List.foldl_nil]
  rw [(digitChar_spec d hd).2]
  omega

theorem digitRunVal_natChars (n : Nat) : digitRunVal (natChars n) = n := by
  induction n using Nat.strong_induction_on with
  | _ n ih =>
    rw [natChars_unfold]
    by_cases h : n < 10
    · rw [if_pos h, List.nil_append,
          show ([digitChar (n % 10)] : List Char) = [] ++ [digitChar (n % 10)] from rfl,
          digitRunVal_append_digit [] (n % 10) (Nat.mod_lt _ (by omega))]
      simp only [digitRunVal, List.foldl_nil]
      omega
    · rw [if_neg h, digitRunVal_append_digit _ (n % 10) (Nat.mod_lt _ (by omega)),
          ih (n / 10) (Nat.div_lt_self (by omega) (by omega))]
      omega

theorem takeDigitRun_stop (cs : List Char) (h : stopsNum cs = true) :
    takeDigitRun cs = ([], cs) := by
  match cs with
  | [] => rfl
  | c :: t =>
      simp only [stopsNum, Bool.not_eq_true'] at h
      simp [takeDigitRun, h]

theorem takeDigitRun_run (ds : List Char) (hds : ∀ c ∈ ds, isDigitCh c = true)
    (rest : List Char) (hrest : stopsNum rest = true) :
    takeDigitRun (ds ++ rest) = (ds, rest) := by
  induction ds with
  | nil => simpa using takeDigitRun_stop rest hrest
  | cons c t ih =>
      have hc : isDigitCh c = true := hds c (by simp)
      have ht := ih (fun x hx => hds x (by simp [hx]))
      simp [takeDigitRun, hc, ht]

theorem parseNatNum_natChars (n : Nat) (rest : List Char) (hr : stopsNum rest = true) :
    parseNatNum (natChars n ++ rest) = some (n, rest) := by
  obtain ⟨c, t, hct, _⟩ := natChars_head n
  have hrun := takeDigitRun_run (natChars n) (natChars_all_digit n) rest hr
  rw [parseNatNum, hrun, hct]
  show some (digitRunVal (c :: t), rest) = some (n, rest)
  rw [← hct, digitRunVal_natChars]

theorem hexVal_hexChar (d : Nat) (hd : d < 16) : hexVal (hexChar d) = some d := by
  interval_cases d <;> decide

theorem parseStrBody_plain (acc : List Char) (c : Char) (t : List Char)
    (hq : c ≠ '"') (hb : c ≠ '\\') :
    parseStrBody acc (c :: t) = parseStrBody (c :: acc) t := by
  rw [parseStrBody.eq_def]
  simp [hq, hb]

theorem parseStrBody_quoteChar (c : Char) (acc t : List Char) :
    parseStrBody acc (quoteChar c ++ t) = parseStrBody (c :: acc) t := by
  have hofnat : ∀ m : Nat, c.toNat = m → c = Char.ofNat m := by
    intro m hm
    rw [← hm, Char.ofNat_toNat]
  rw [quoteChar]
  by_cases h1 : c = '"'
  · subst h1
    simp [parseStrBody, unescapeChar]
  rw [if_neg h1]
  by_cases h2 : c = '\\'
  · subst h2
    simp [parseStrBody, unescapeChar]
  rw [if_neg h2]
  by_cases h3 : c.toNat = 8
  · rw [if_pos h3, hofnat 8 h3]
    simp [parseStrBody, unescapeChar]
  rw [if_neg h3]
  by_cases h4 : c.toNat = 9
  · rw [if_pos h4, hofnat 9 h4]
    simp [parseStrBody, unescapeChar]
  rw [if_neg h4]
  by_cases h5 : c.toNat = 10
  · rw [if_pos h5, hofnat 10 h5]
    simp [parseStrBody, unescapeChar]
  rw [if_neg h5]
  by_cases h6 : c.toNat = 12
  · rw [if_pos h6, hofnat 12 h6]
    simp [parseStrBody, unescapeChar]
  rw [if_neg h6]
  by_cases h7 : c.toNat = 13
  · rw [if_pos h7, hofnat 13 h7]
    simp [parseStrBody, unescapeChar]
  rw [if_neg h7]
  by_cases h8 : c.toNat < 32
  · rw [if_pos h8]
    have hhi : c.toNat / 16 < 16 := by omega
    have hlo : c.toNat % 16 < 16 := by omega
    have harith : ((0 * 16 + 0) * 16 + c.toNat / 16) * 16 + c.toNat % 16 = c.toNat := by
      omega
    simp only [List.cons_append, List.nil_append, parseStrBody,
      hexVal_hexChar _ hhi, hexVal_hexChar _ hlo]
    rw [show hexVal '0' = some 0 from by decide]
    simp only [harith, Char.ofNat_toNat]
    rfl
  · rw [if_neg h8, List.cons_append, List.nil_append,
      parseStrBody_plain acc c t h1 h2]

theorem parseStrBody_quoteChars (s : List Char) : ∀ (acc t : List Char),
    parseStrBody acc (quoteChars s ++ ('"' :: t)) = some (acc.reverse ++ s, t) := by
  induction s with
  | nil =>
      intro acc t
      simp [quoteChars, parseStrBody]
  | cons c cs ih =>
      intro acc t
      rw [quoteChars, List.append_assoc, parseStrBody_quoteChar, ih]
      simp

theorem isDigitCh_ne_starters (c : Char) (h : isDigitCh c = true) :
    c ≠ 'n' ∧ c ≠ 't' ∧ c ≠ 'f' ∧ c ≠ '"' ∧ c ≠ '[' ∧ c ≠ lbrace ∧ c ≠ '-' := by
  refine ⟨?_, ?_, ?_, ?_, ?_, ?_, ?_⟩ <;> (rintro rfl; revert h; decide)

theorem stringify_head (v : JsVal) :
    ∃ c t, stringifyVal v = c :: t ∧ c ≠ ']' := by
  cases v with
  | null => exact ⟨'n', _, rfl, by decide⟩
  | bool b =>
      cases b with
      | true => exact ⟨'t', _, rfl, by decide⟩
      | false => exact ⟨'f', _, rfl, by decide⟩
  | num n =>
      by_cases hn : n < 0
      · exact ⟨'-', natChars n.natAbs, by simp [stringifyVal, intChars, hn], by decide⟩
      · obtain ⟨c, t, hct, hd⟩ := natChars_head n.natAbs
        refine ⟨c, t, by simp [stringifyVal, intChars, hn, hct], ?_⟩
        rintro rfl
        exact absurd hd (by decide)
  | str s => exact ⟨'"', _, rfl, by decide⟩
  | arr es => exact ⟨'[', _, rfl, by decide⟩
  | obj ms => exact ⟨lbrace, _, rfl, by decide⟩

theorem stringifyElems_head (e : JsVal) (es : List JsVal) :
    ∃ c t, stringifyElems (e :: es) = c :: t ∧ c ≠ ']' := by
  obtain ⟨c, t, hct, hc⟩ := stringify_head e
  cases es with
  | nil => exact ⟨c, t, by rw [stringifyElems, hct], hc⟩
  | cons e2 es2 =>
      exact ⟨c, t ++ ',' :: stringifyElems (e2 :: es2),
        by rw [stringifyElems, hct, List.cons_append], hc⟩

theorem stopsNum_cons (c : Char) (t : List Char) (h : isDigitCh c = false) :
    stopsNum (c :: t) = true := by
  simp [stopsNum, h]

mutual

theorem stringify_parseVal : ∀ (v : JsVal) (fuel : Nat) (rest : List Char),
    (stringifyVal v).length < fuel → stopsNum rest = true →
    parseValF fuel (stringifyVal v ++ rest) = some (v, rest)
  | .null, fuel, rest, hf, _ => by
      cases fuel with
      | zero => simp [stringifyVal] at hf
      | succ f => simp [stringifyVal, parseValF]
  | .bool b, fuel, rest, hf, _ => by
      cases fuel with
      | zero => cases b <;> simp [stringifyVal] at hf
      | succ f => cases b <;> simp [stringifyVal, parseValF]
  | .num n, fuel, rest, hf, hr => by
      cases fuel with
      | zero => exact absurd hf (Nat.not_lt_zero _)
      | succ f =>
          by_cases hn : n < 0
          · have harg : stringifyVal (.num n) ++ rest
                = '-' :: (natChars n.natAbs ++ rest) := by
              simp [stringifyVal, intChars, hn]
            rw [harg]
            simp [parseValF, lbrace, parseNatNum_natChars _ _ hr]
            rw [Int.abs_eq_natAbs]
            omega
          · obtain ⟨c0, t0, hct, hd⟩ := natChars_head n.natAbs
            obtain ⟨hcn, hct', hcf, hcq, hcbk, hclb, hcm⟩ := isDigitCh_ne_starters c0 hd
            have harg : stringifyVal (.num n) ++ rest = c0 :: (t0 ++ rest) := by
              simp [stringifyVal, intChars, hn, hct]
            rw [harg]
            simp only [parseValF]
            rw [if_neg hcn, if_neg hct', if_neg hcf, if_neg hcq, if_neg hcbk,
              if_neg hclb, if_neg hcm, if_pos hd]
            have hback : c0 :: (t0 ++ rest) = natChars n.natAbs ++ rest := by
              rw [hct, List.cons_append]
            rw [hback, parseNatNum_natChars _ _ hr]
            have hcast : ((n.natAbs : Nat) : Int) = n := Int.natAbs_of_nonneg (by omega)
            simp [hcast]
  | .str s, fuel, rest, hf, _ => by
      cases fuel with
      | zero => exact absurd hf (Nat.not_lt_zero _)
      | succ f =>
          have harg : stringifyVal (.str s) ++ rest
              = '"' :: (quoteChars s.data ++ ('"' :: rest)) := by
            simp [stringifyVal, quoteStr]
          rw [harg]
          simp only [parseValF]
          rw [parseStrBody_quoteChars]
          simp
  | .arr [], fuel, rest, hf, _ => by
      cases fuel with
      | zero => exact absurd hf (Nat.not_lt_zero _)
      | succ f =>
          have harg : stringifyVal (.arr []) ++ rest = '[' :: (']' :: rest) := by
            simp [stringifyVal, stringifyElems]
          rw [harg]
          simp [parseValF]
  | .arr (e :: es2), fuel, rest, hf, _ => by
      cases fuel with
      | zero => exact absurd hf (Nat.not_lt_zero _)
      | succ f =>
          obtain ⟨c2, t2, hct, hc2⟩ := stringifyElems_head e es2
          have harg : stringifyVal (.arr (e :: es2)) ++ rest
              = '[' :: (c2 :: (t2 ++ (']' :: rest))) := by
            simp [stringifyVal, hct]
          have hlen : (stringifyElems (e :: es2)).length + 1 < f := by
            simp only [stringifyVal, List.length_cons, List.length_append,
              List.length_singleton] at hf
            omega
          have helems := stringify_parseElems e es2 f rest hlen
          have hback : c2 :: (t2 ++ (']' :: rest))
              = stringifyElems (e :: es2) ++ (']' :: rest) := by
            rw [hct, List.cons_append]
          rw [harg]
          simp only [parseValF, if_true]
          rw [if_neg hc2, hback, helems]
          simp
  | .obj [], fuel, rest, hf, _ => by
      cases fuel with
      | zero => exact absurd hf (Nat.not_lt_zero _)
      | succ f =>
          have harg : stringifyVal (.obj []) ++ rest = lbrace :: (rbrace :: rest) := by
            simp [stringifyVal, stringifyMembers]
          rw [harg]
          simp [parseValF, lbrace, rbrace]
  | .obj ((k, v) :: ms2), fuel, rest, hf, _ => by
      cases fuel with
      | zero => exact absurd hf (Nat.not_lt_zero _)
      | succ f =>
          have hmh : ∃ t, stringifyMembers ((k, v) :: ms2) = '"' :: t := by
            cases ms2 with
            | nil =>
                exact ⟨quoteChars k.data ++ ('"' :: (':' :: stringifyVal v)),
                  by simp [stringifyMembers, quoteStr]⟩
            | cons m2 ms3 =>
                exact ⟨quoteChars k.data ++ ('"' :: (':' :: (stringifyVal v
                    ++ (',' :: stringifyMembers (m2 :: ms3))))),
                  by simp [stringifyMembers, quoteStr]⟩
          obtain ⟨tk, htk⟩ := hmh
          have hlen : (stringifyMembers ((k, v) :: ms2)).length + 1 < f := by
            simp only [stringifyVal, List.length_cons, List.length_append,
              List.length_singleton] at hf
            omega
          have hmem := stringify_parseMembers k v ms2 f rest hlen
          have harg : stringifyVal (.obj ((k, v) :: ms2)) ++ rest
              = lbrace :: ('"' :: (tk ++ (rbrace :: rest))) := by
            simp [stringifyVal, htk]
          have hback : ('"' : Char) :: (tk ++ (rbrace :: rest))
              = stringifyMembers ((k, v) :: ms2) ++ (rbrace :: rest) := by
            rw [htk, List.cons_append]
          rw [harg]
          simp only [parseValF, if_true]
          rw [if_neg (by decide : ¬(('"' : Char) = rbrace)), hback, hmem]
          simp [lbrace]
  termination_by v _ _ => sizeOf v

theorem stringify_parseElems : ∀ (e : JsVal) (es : List JsVal) (fuel : Nat) (rest : List Char),
    (stringifyElems (e :: es)).length + 1 < fuel →
    parseElemsF fuel (stringifyElems (e :: es) ++ (']' :: rest)) = some (e :: es, rest)
  | e, [], fuel, rest, hf => by
      cases fuel with
      | zero => omega
      | succ f =>
          have hlen : (stringifyVal e).length < f := by
            simp only [stringifyElems] at hf; omega
          have hv := stringify_parseVal e f (']' :: rest) hlen (stopsNum_cons _ _ (by decide))
          have harg : stringifyElems [e] ++ (']' :: rest)
              = stringifyVal e ++ (']' :: rest) := by
            rw [stringifyElems]
          rw [harg]
          simp only [parseElemsF]
          rw [hv]
          simp
  | e, e2 :: es2, fuel, rest, hf => by
      cases fuel with
      | zero => omega
      | succ f =>
          have hstep : stringifyElems (e :: e2 :: es2)
              = stringifyVal e ++ ',' :: stringifyElems (e2 :: es2) := rfl
          have h1 : (stringifyVal e).length < f := by
            rw [hstep] at hf
            simp only [List.length_append, List.length_cons] at hf
            omega
          have h2 : (stringifyElems (e2 :: es2)).length + 1 < f := by
            rw [hstep] at hf
            simp only [List.length_append, List.length_cons] at hf
            omega
          have hv := stringify_parseVal e f
            (',' :: (stringifyElems (e2 :: es2) ++ (']' :: rest))) h1 (stopsNum_cons _ _ (by decide))
          have htail := stringify_parseElems e2 es2 f rest h2
          have harg : stringifyElems (e :: e2 :: es2) ++ (']' :: rest)
              = stringifyVal e ++ (',' :: (stringifyElems (e2 :: es2) ++ (']' :: rest))) := by
            rw [hstep]
            simp [List.append_assoc]
          rw [harg]
          simp only [parseElemsF]
          rw [hv]
          simp [htail]
  termination_by e es _ _ => sizeOf e + sizeOf es

theorem stringify_parseMembers : ∀ (k : String) (v : JsVal)
    (ms : List (String × JsVal)) (fuel : Nat) (rest : List Char),
    (stringifyMembers ((k, v) :: ms)).length + 1 < fuel →
    parseMembersF fuel (stringifyMembers ((k, v) :: ms) ++ (rbrace :: rest))
      = some ((k, v) :: ms, rest)
  | k, v, [], fuel, rest, hf => by
      cases fuel with
      | zero => omega
      | succ f =>
          have hlen : (stringifyVal v).length < f := by
            simp only [stringifyMembers, List.length_append, List.length_cons] at hf
            omega
          have hv := stringify_parseVal v f (rbrace :: rest) hlen (stopsNum_cons _ _ (by decide))
          have harg : stringifyMembers [(k, v)] ++ (rbrace :: rest)
              = '"' :: (quoteChars k.data
                  ++ ('"' :: (':' :: (stringifyVal v ++ (rbrace :: rest))))) := by
            simp [stringifyMembers, quoteStr]
          rw [harg]
          simp only [parseMembersF]
          rw [parseStrBody_quoteChars]
          simp only [List.nil_append]
          rw [hv]
          simp [rbrace]
  | k, v, (k2, v2) :: ms2, fuel, rest, hf => by
      cases fuel with
      | zero => omega
      | succ f =>
          have hstep : stringifyMembers ((k, v) :: (k2, v2) :: ms2)
              = quoteStr k ++ ':' :: stringifyVal v
                  ++ ',' :: stringifyMembers ((k2, v2) :: ms2) := by
            rw [stringifyMembers]
          have h1 : (stringifyVal v).length < f := by
            rw [hstep] at hf
            simp only [List.length_append, List.length_cons] at hf
            omega
          have h2 : (stringifyMembers ((k2, v2) :: ms2)).length + 1 < f := by
            rw [hstep] at hf
            simp only [List.length_append, List.length_cons] at hf
            omega
          have hv := stringify_parseVal v f
            (',' :: (stringifyMembers ((k2, v2) :: ms2) ++ (rbrace :: rest))) h1
            (stopsNum_cons _ _ (by decide))
          have htail := stringify_parseMembers k2 v2 ms2 f rest h2
          have harg : stringifyMembers ((k, v) :: (k2, v2) :: ms2) ++ (rbrace :: rest)
              = '"' :: (quoteChars k.data ++ ('"' :: (':' :: (stringifyVal v
                  ++ (',' :: (stringifyMembers ((k2, v2) :: ms2) ++ (rbrace :: rest))))))) := by
            rw [hstep]
            simp [quoteStr, List.append_assoc]
          rw [harg]
          simp only [parseMembersF]
          rw [parseStrBody_quoteChars]
          simp only [List.nil_append]
          rw [hv]
          simp [htail]
  termination_by _ v ms _ _ => sizeOf v + sizeOf ms

end

/-- Parsing inverts stringification: `JSON.parse(JSON.stringify(v))`
recovers `v` for every embedded value. -/
theorem jsonParse_jsonStringify (v : JsVal) : jsonParse (jsonStringify v) = some v := by
  have h := stringify_parseVal v ((stringifyVal v).length + 1) [] (by omega) rfl
  rw [List.append_nil] at h
  rw [jsonParse]
  have hdata : (jsonStringify v).data = stringifyVal v := rfl
  rw [hdata, h]

/-- The base64 alphabet, as character list. -/
def b64alphabet : List Char :=
  ("ABCDEFGHIJKLMNOPQRSTUVWXYZabcdefghijklmnopqrstuvwxyz0123456789+/").data

/-- Character encoding a 6-bit group. -/
def b64char (n : Nat) : Char := b64alphabet.getD n 'A'

/-- Index of a character in the base64 alphabet, scanning from `i`. -/
def b64indexAux : List Char → Nat → Char → Option Nat
  | [], _, _ => none
  | a :: rest, i, c => if a = c then some i else b64indexAux rest (i + 1) c

/-- The 6-bit group a base64 character encodes, if any. -/
def b64index (c : Char) : Option Nat := b64indexAux b64alphabet 0 c

/-- RFC 4648 base64 encoding of a byte list (the `base-64` package's
`encode`, after its code-point extraction). -/
def b64encodeChunks : List Nat → List Char
  | [] => []
  | [a] => [b64char (a / 4), b64char (a % 4 * 16), '=', '=']
  | [a, b] => [b64char (a / 4), b64char (a % 4 * 16 + b / 16), b64char (b % 16 * 4), '=']
  | a :: b :: c :: rest =>
      b64char (a / 4) :: b64char (a % 4 * 16 + b / 16)
        :: b64char (b % 16 * 4 + c / 64) :: b64char (c % 64) :: b64encodeChunks rest

/-- Base64 decoding to a byte list (the `base-64` package's `decode` on
well-padded input; `none` models its thrown error). -/
def b64decodeChunks : List Char → Option (List Nat)
  | [] => some []
  | c1 :: c2 :: c3 :: c4 :: t =>
      match b64index c1, b64index c2 with
      | some s1, some s2 =>
          if c3 = '=' then
            if c4 = '=' then
              match t with
              | [] => some [s1 * 4 + s2 / 16]
              | _ => none
            else none
          else
            match b64index c3 with
            | some s3 =>
                if c4 = '=' then
                  match t with
                  | [] => some [s1 * 4 + s2 / 16, s2 % 16 * 16 + s3 / 4]
                  | _ => none
                else
                  match b64index c4 with
                  | some s4 =>
                      match b64decodeChunks t with
                      | some bs =>
                          some ((s1 * 4 + s2 / 16) :: (s2 % 16 * 16 + s3 / 4)
                            :: ((s3 % 4 * 64 + s4) :: bs))
                      | none => none
                  | none => none
            | none => none
      | _, _ => none
  | _ => none

/-- Model of the `base-64` package's `encode`: fails (throws) when any
character is outside the Latin1 range, otherwise base64 of the code points. -/
def base64encode (s : String) : Option String :=
  if s.data.all (fun c => c.toNat < 256) then
    some (String.mk (b64encodeChunks (s.data.map Char.toNat)))
  else none

/-- Model of the `base-64` package's `decode`: the decoded bytes back as a
Latin1 string, `none` for rejected input. -/
def base64decode (s : String) : Option String :=
  match b64decodeChunks s.data with
  | some bs => some (String.mk (bs.map Char.ofNat))
  | none => none

theorem b64index_b64char : ∀ n : Nat, n < 64 → b64index (b64char n) = some n := by
  decide

theorem b64char_ne_pad : ∀ n : Nat, n < 64 → b64char n ≠ '=' := by
  decide

theorem b64decode_b64encode (bs : List Nat) (h : ∀ b ∈ bs, b < 256) :
    b64decodeChunks (b64encodeChunks bs) = some bs :=
  match bs with
  | [] => rfl
  | [a] => by
      have ha : a < 256 := h a (by simp)
      rw [b64encodeChunks, b64decodeChunks,
        b64index_b64char _ (by omega), b64index_b64char _ (by omega)]
      simp
      omega
  | [a, b] => by
      have ha : a < 256 := h a (by simp)
      have hb : b < 256 := h b (by simp)
      have i3 := b64index_b64char (b % 16 * 4) (by omega)
      have p3 := b64char_ne_pad (b % 16 * 4) (by omega)
      rw [b64encodeChunks, b64decodeChunks,
        b64index_b64char _ (by omega), b64index_b64char _ (by omega)]
      simp [i3, p3]
      omega
  | a :: b :: c :: rest => by
      have ha : a < 256 := h a (by simp)
      have hb : b < 256 := h b (by simp)
      have hc : c < 256 := h c (by simp)
      have ih := b64decode_b64encode rest (fun x hx => h x (by simp [hx]))
      have i3 := b64index_b64char (b % 16 * 4 + c / 64) (by omega)
      have i4 := b64index_b64char (c % 64) (by omega)
      have p3 := b64char_ne_pad (b % 16 * 4 + c / 64) (by omega)
      have p4 := b64char_ne_pad (c % 64) (by omega)
      rw [b64encodeChunks, b64decodeChunks,
        b64index_b64char _ (by omega), b64index_b64char _ (by omega)]
      simp [i3, i4, p3, p4, ih]
      omega

/-- Round-trip through the base64 model: decoding an encoded Latin1 string
recovers it exactly. -/
theorem base64decode_base64encode (s : String)
    (h : s.data.all (fun c => c.toNat < 256) = true) :
    (base64encode s).bind base64decode = some s := by
  rw [base64encode, if_pos h, Option.bind, base64decode]
  have hdata : (String.mk (b64encodeChunks (s.data.map Char.toNat))).data
      = b64encodeChunks (s.data.map Char.toNat) := rfl
  rw [hdata]
  rw [b64decode_b64encode (s.data.map Char.toNat)
    (by
      intro b hbmem
      obtain ⟨c, hcmem, rfl⟩ := List.mem_map.mp hbmem
      exact of_decide_eq_true (List.all_eq_true.mp h c hcmem))]
  have hmapmap : (s.data.map Char.toNat).map Char.ofNat = s.data := by
    rw [List.map_map]
    have : (Char.ofNat ∘ Char.toNat) = id := by
      funext c
      exact Char.ofNat_toNat c
    rw [this, List.map_id]
  show some (String.mk ((s.data.map Char.toNat).map Char.ofNat)) = some s
  rw [hmapmap]

/-- Attribute encoding as sent by `updateCurrentUser` / `searchDocuments` /
`createUser`: `base64.encode(JSON.stringify(attributes))`; `none` models the
`base-64` throw on non-Latin1 stringifications. -/
def attrsEncode (v : JsVal) : Option String := base64encode (jsonStringify v)

/-- Attribute decoding as performed on received users/documents:
`JSON.parse(base64.decode(s))`. -/
def attrsDecode (s : String) : Option JsVal := (base64decode s).bind jsonParse

/-- Decoding inverts encoding whenever the stringified value stays in the
Latin1 range (the range `base-64` accepts). -/
theorem attrsDecode_attrsEncode (v : JsVal)
    (h : ((jsonStringify v).data.all (fun c => c.toNat < 256)) = true) :
    (attrsEncode v).bind attrsDecode = some v := by
  have hb := base64decode_base64encode (jsonStringify v) h
  rw [base64encode, if_pos h] at hb
  simp only [Option.some_bind] at hb
  rw [attrsEncode, base64encode, if_pos h]
  simp only [Option.some_bind]
  rw [attrsDecode, hb]
  simp only [Option.some_bind]
  exact jsonParse_jsonStringify v

/-- Client state: the `TrueVaultClient` fields the claims concern.
`_authHeader = none` models `null`; `_accessToken = none` models the field
never having been assigned. -/
structure ClientState where
  _authHeader : Option String
  _accessToken : Option String
  host : String
deriving Repr, DecidableEq

/-- Errors the constructor and accessors throw. -/
inductive JsError where
  | configurationError
  | base64Error
  | noAccessToken
deriving Repr, DecidableEq

/-- An authentication specifier as passed to the constructor. `undef` is JS
`undefined`; object fields are string-valued (the documented shapes). -/
inductive AuthnValue where
  | nullv
  | undef
  | boolv (b : Bool)
  | numv (n : Int)
  | strv (s : String)
  | objv (fields : List (String × String))
deriving Repr, DecidableEq

/-- JS truthiness of an authentication specifier (`!authn` is its negation). -/
def truthyAuthn : AuthnValue → Bool
  | .nullv => false
  | .undef => false
  | .boolv b => b
  | .numv n => n != 0
  | .strv s => s ≠ ""
  | .objv _ => true

/-- `TrueVaultClient._makeHeaderForUsername`:
`Basic ${base64.encode(username + ':')}`, propagating the `base-64` throw. -/
def makeHeaderForUsername (username : String) : Except JsError String :=
  match base64encode (username ++ ":") with
  | some b => .ok ("Basic " ++ b)
  | none => .error .base64Error

/-- The production API host the constructor falls back to. -/
def defaultHost : String := "https://api.truevault.com"

/-- `this.host = host || 'https://api.truevault.com'`: `undefined` or an
empty string fall back to the default. -/
def hostOf : Option String → String
  | none => defaultHost
  | some h => if h = "" then defaultHost else h

/-- The `accessToken` getter: throws (`No access token set…`) unless
`_accessToken` holds a truthy value. -/
def getAccessToken (s : ClientState) : Except JsError String :=
  match s._accessToken with
  | some t => if t = "" then .error .noAccessToken else .ok t
  | none => .error .noAccessToken

/-- The `TrueVaultClient` constructor: falsy specifier → unauthenticated
client; object specifier → probe `apiKey`, `accessToken`, `httpBasic` in that
order (an object with none of them silently yields no auth header);
anything else → `ConfigurationError`. The `accessToken` arm reads the value
back through the getter, which throws on a falsy token. -/
def mkClient (authn : AuthnValue) (host : Option String) : Except JsError ClientState :=
  if truthyAuthn authn = false then .ok ⟨none, none, hostOf host⟩
  else
    match authn with
    | .objv fields =>
        if (fields.lookup "apiKey").isSome then
          match makeHeaderForUsername ((fields.lookup "apiKey").getD "") with
          | .ok h => .ok ⟨some h, none, hostOf host⟩
          | .error e => .error e
        else if (fields.lookup "accessToken").isSome then
          if (fields.lookup "accessToken").getD "" = "" then .error .noAccessToken
          else
            match makeHeaderForUsername ((fields.lookup "accessToken").getD "") with
            | .ok h => .ok ⟨some h, some ((fields.lookup "accessToken").getD ""), hostOf host⟩
            | .error e => .error e
        else if (fields.lookup "httpBasic").isSome then
          .ok ⟨some ("Basic " ++ (fields.lookup "httpBasic").getD ""), none, hostOf host⟩
        else .ok ⟨none, none, hostOf host⟩
    | _ => .error .configurationError

/-- JS object field assignment on a headers map: overwrite in place, or
append when the key is new. -/
def setHeader (headers : List (String × String)) (k v : String) :
    List (String × String) :=
  if (headers.lookup k).isSome then
    headers.map (fun p => if p.1 = k then (k, v) else p)
  else headers ++ [(k, v)]

/-- The header-preparation step of `performLegacyRequest`:
`if (!!this.authHeader) options.headers.Authorization = this.authHeader` —
a held (truthy) auth header overwrites any caller-supplied entry; with no
credential the caller's headers pass through untouched. -/
def injectAuthHeader (authHeader : Option String)
    (headers : List (String × String)) : List (String × String) :=
  match authHeader with
  | some h => if h = "" then headers else setHeader headers "Authorization" h
  | none => headers

/-- `logout()`: issues the POST (its parsed envelope is `response`), then
assigns only `this._authHeader = null` and returns `response.logout`. -/
def logout (s : ClientState) (response : JsVal) : ClientState × Option JsVal :=
  ({ s with _authHeader := none }, getField response "logout")

/-- Outcome of response-envelope handling in the dispatch primitives. -/
inductive LegacyOutcome where
  | malformedResponse (raw : String)
  | jsTypeError
  | apiError (errObj : JsVal) (txn : Option JsVal)
  | success (json : JsVal)
deriving Repr

/-- Post-parse classification in `performLegacyRequest`: on
`json.result === 'error'` it throws an Error carrying `json.error` (as
`.error`) and `json.transaction_id` (as `.transaction_id`); otherwise it
returns the parsed value. Reading `.result` on `null`, or `.message` on a
missing or null `error`, throws a TypeError instead. -/
def legacyClassify (j : JsVal) : LegacyOutcome :=
  match j with
  | .null => .jsTypeError
  | _ =>
      match getField j "result" with
      | some (.str s) =>
          if s = "error" then
            match getField j "error" with
            | none => .jsTypeError
            | some .null => .jsTypeError
            | some e => .apiError e (getField j "transaction_id")
          else .success j
      | _ => .success j

/-- Body handling of `performLegacyRequest`: read the body text, attempt
`JSON.parse` (failure throws the `non-JSON response` error carrying the raw
body), then classify the envelope. -/
def performLegacyRequestBody (body : String) : LegacyOutcome :=
  match jsonParse body with
  | none => .malformedResponse body
  | some j => legacyClassify j

/-- The `json` response-type branch of `performLegacyRequestWithProgress`:
the same envelope check, but the rejected Error is built with only
`.error` — no `transaction_id` property is ever attached. -/
def progressJsonClassify (j : JsVal) : LegacyOutcome :=
  match j with
  | .null => .jsTypeError
  | _ =>
      match getField j "result" with
      | some (.str s) =>
          if s = "error" then
            match getField j "error" with
            | none => .jsTypeError
            | some .null => .jsTypeError
            | some e => .apiError e none
          else .success j
      | _ => .success j

/-- `getDocuments(vaultId, documentIds)`: zero ids return `[]` with no
request; one id is doubled into the path; otherwise all ids are joined.
`server` maps the issued path to the resolved JSON envelope (the dispatch
success case). Returns the issued request paths and `response.documents`. -/
def getDocuments (vaultId : String) (documentIds : List String)
    (server : String → JsVal) : List String × Option JsVal :=
  if documentIds.length = 0 then ([], some (.arr []))
  else
    let requestDocumentIds :=
      if documentIds.length = 1 then [documentIds.headI, documentIds.headI]
      else documentIds
    let path := "v2/vaults/" ++ vaultId ++ "/documents/"
        ++ String.intercalate "," requestDocumentIds
    ([path], getField (server path) "documents")

/-- The user post-processing in `readCurrentUser`:
`if (user.attributes) user.attributes = JSON.parse(base64.decode(user.attributes))`.
A falsy `attributes` (absent, `null`, empty string…) is left exactly as it
came; `none` models a throw while decoding a truthy value. -/
def normalizeUserAttributes (user : JsVal) : Option JsVal :=
  match getField user "attributes" with
  | some a =>
      if truthy a then
        match base64decode (jsString a) with
        | some decoded =>
            match jsonParse decoded with
            | some v => some (setField user "attributes" v)
            | none => none
        | none => none
      else some user
  | none => some user

/-- `readCurrentUser` on a resolved envelope: takes `response.user` and
normalizes its attributes; `none` models the TypeError when `user` is
absent. -/
def readCurrentUser (response : JsVal) : Option JsVal :=
  match getField response "user" with
  | some user => normalizeUserAttributes user
  | none => none

theorem lookup_map_replace (k v : String) :
    ∀ (headers : List (String × String)), (headers.lookup k).isSome = true →
    ((headers.map (fun p => if p.1 = k then (k, v) else p)).lookup k) = some v := by
  intro headers
  induction headers with
  | nil => intro h; simp [List.lookup] at h
  | cons p t ih =>
      obtain ⟨a, b⟩ := p
      intro hsome
      by_cases hk : a = k
      · subst hk
        rw [List.map_cons, if_pos rfl]
        simp [List.lookup]
      · have hbeq : (k == a) = false := beq_eq_false_iff_ne.mpr (fun he => hk he.symm)
        rw [List.map_cons]
        rw [if_neg (by simpa using hk)]
        rw [show List.lookup k ((a, b) :: t.map (fun p => if p.1 = k then (k, v) else p))
            = List.lookup k (t.map (fun p => if p.1 = k then (k, v) else p)) from by
          simp [List.lookup, hbeq]]
        refine ih ?_
        rw [show List.lookup k ((a, b) :: t) = List.lookup k t from by
          simp [List.lookup, hbeq]] at hsome
        exact hsome

theorem lookup_append_new (k v : String) :
    ∀ (headers : List (String × String)), headers.lookup k = none →
    ((headers ++ [(k, v)]).lookup k) = some v := by
  intro headers
  induction headers with
  | nil => intro _; simp [List.lookup]
  | cons p t ih =>
      obtain ⟨a, b⟩ := p
      intro hnone
      by_cases hbeq : (k == a) = true
      · rw [show List.lookup k ((a, b) :: t) = some b from by simp [List.lookup, hbeq]] at hnone
        exact absurd hnone (by simp)
      · have hbeq' : (k == a) = false := by
          cases hval : (k == a)
          · rfl
          · exact absurd hval hbeq
        rw [show List.lookup k ((a, b) :: t) = List.lookup k t from by
          simp [List.lookup, hbeq']] at hnone
        rw [List.cons_append]
        rw [show List.lookup k ((a, b) :: (t ++ [(k, v)]))
            = List.lookup k (t ++ [(k, v)]) from by simp [List.lookup, hbeq']]
        exact ih hnone

/-- Writing a header makes it the value subsequently read back. -/
theorem lookup_setHeader (headers : List (String × String)) (k v : String) :
    (setHeader headers k v).lookup k = some v := by
  rw [setHeader]
  by_cases hsome : (headers.lookup k).isSome = true
  · rw [if_pos hsome]
    exact lookup_map_replace k v headers hsome
  · rw [if_neg hsome]
    exact lookup_append_new k v headers (Option.not_isSome_iff_eq_none.mp hsome)

theorem makeHeaderForUsername_form (u h : String)
    (hmk : makeHeaderForUsername u = .ok h) : ∃ b, h = "Basic " ++ b := by
  rw [makeHeaderForUsername] at hmk
  split at hmk
  · rename_i b hb
    exact ⟨b, (Except.ok.inj hmk).symm⟩
  · exact absurd hmk (by simp)

/-- Every auth header the constructor derives starts with `Basic `. -/
theorem mkClient_authHeader_form (authn : AuthnValue) (host : Option String)
    (s : ClientState) (h : String) (hmk : mkClient authn host = .ok s)
    (hah : s._authHeader = some h) : ∃ b, h = "Basic " ++ b := by
  rw [mkClient.eq_def] at hmk
  by_cases htr : truthyAuthn authn = false
  · rw [if_pos htr] at hmk
    cases hmk
    exact absurd hah (by simp)
  · rw [if_neg htr] at hmk
    cases authn with
    | objv fields =>
        simp only [] at hmk
        by_cases h1 : (fields.lookup "apiKey").isSome = true
        · rw [if_pos h1] at hmk
          cases hm : makeHeaderForUsername ((fields.lookup "apiKey").getD "") with
          | ok h2 =>
              rw [hm] at hmk
              cases hmk
              obtain ⟨b, hb⟩ := makeHeaderForUsername_form _ _ hm
              exact ⟨b, by rw [← Option.some.inj hah, hb]⟩
          | error e =>
              rw [hm] at hmk
              exact Except.noConfusion hmk
        · rw [if_neg h1] at hmk
          by_cases h2 : (fields.lookup "accessToken").isSome = true
          · rw [if_pos h2] at hmk
            by_cases h3 : (fields.lookup "accessToken").getD "" = ""
            · rw [if_pos h3] at hmk
              exact Except.noConfusion hmk
            · rw [if_neg h3] at hmk
              cases hm : makeHeaderForUsername ((fields.lookup "accessToken").getD "") with
              | ok h4 =>
                  rw [hm] at hmk
                  cases hmk
                  obtain ⟨b, hb⟩ := makeHeaderForUsername_form _ _ hm
                  exact ⟨b, by rw [← Option.some.inj hah, hb]⟩
              | error e =>
                  rw [hm] at hmk
                  exact Except.noConfusion hmk
          · rw [if_neg h2] at hmk
            by_cases h3 : (fields.lookup "httpBasic").isSome = true
            · rw [if_pos h3] at hmk
              cases hmk
              exact ⟨_, (Option.some.inj hah).symm⟩
            · rw [if_neg h3] at hmk
              cases hmk
              exact absurd hah (by simp)
    | nullv => exact Except.noConfusion hmk
    | undef => exact Except.noConfusion hmk
    | boolv b => exact Except.noConfusion hmk
    | numv n => exact Except.noConfusion hmk
    | strv q => exact Except.noConfusion hmk

theorem legacyClassify_error (j e : JsVal)
    (hres : getField j "result" = some (.str "error"))
    (herr : getField j "error" = some e) (hne : e ≠ .null) :
    legacyClassify j = .apiError e (getField j "transaction_id") := by
  cases j with
  | null => simp [getField] at hres
  | bool b => simp [getField] at hres
  | num n => simp [getField] at hres
  | str q => simp [getField] at hres
  | arr es => simp [getField] at hres
  | obj fields =>
      rw [legacyClassify.eq_def]
      simp only [hres, herr]
      rw [if_pos trivial]

theorem legacyClassify_error_missing (j : JsVal)
    (hres : getField j "result" = some (.str "error"))
    (herr : getField j "error" = none ∨ getField j "error" = some .null) :
    legacyClassify j = .jsTypeError := by
  cases j with
  | null => simp [getField] at hres
  | bool b => simp [getField] at hres
  | num n => simp [getField] at hres
  | str q => simp [getField] at hres
  | arr es => simp [getField] at hres
  | obj fields =>
      rw [legacyClassify.eq_def]
      rcases herr with h | h
      · simp only [hres, h]
        rw [if_pos trivial]
      · simp only [hres, h]
        rw [if_pos trivial]

theorem legacyClassify_success (j : JsVal) (hnull : j ≠ .null)
    (hres : ∀ s, getField j "result" = some (.str s) → s ≠ "error") :
    legacyClassify j = .success j := by
  cases j with
  | null => exact absurd rfl hnull
  | bool b => rfl
  | num n => rfl
  | str q => rfl
  | arr es => rfl
  | obj fields =>
      rw [legacyClassify.eq_def]
      cases hr : getField (.obj fields) "result" with
      | none => rfl
      | some v =>
          cases v with
          | str s =>
              have hs := hres s hr
              simp only []
              rw [if_neg hs]
          | null => rfl
          | bool b => rfl
          | num n => rfl
          | arr es => rfl
          | obj ms => rfl

theorem progressJsonClassify_error (j e : JsVal)
    (hres : getField j "result" = some (.str "error"))
    (herr : getField j "error" = some e) (hne : e ≠ .null) :
    progressJsonClassify j = .apiError e none := by
  cases j with
  | null => simp [getField] at hres
  | bool b => simp [getField] at hres
  | num n => simp [getField] at hres
  | str q => simp [getField] at hres
  | arr es => simp [getField] at hres
  | obj fields =>
      rw [progressJsonClassify.eq_def]
      simp only [hres, herr]
      rw [if_pos trivial]

/-- Claim C4: every request issued through the dispatch primitive by a
client holding a credential carries exactly the header derived at
construction — `Basic base64(cred + ':')` for the apiKey and accessToken
forms, `Basic ` ++ raw for httpBasic — and that derived header wins even
when the caller supplies its own Authorization entry in the headers map. -/
theorem authHeaderAlwaysDerived :
    (∀ (authn : AuthnValue) (host : Option String) (s : ClientState) (h : String)
        (headers : List (String × String)),
      mkClient authn host = .ok s → s._authHeader = some h →
      (injectAuthHeader s._authHeader headers).lookup "Authorization" = some h)
    ∧ (∀ (k : String) (host : Option String) (s : ClientState) (e : String),
        base64encode (k ++ ":") = some e →
        mkClient (.objv [("apiKey", k)]) host = .ok s →
        s._authHeader = some ("Basic " ++ e))
    ∧ (∀ (t : String) (host : Option String) (s : ClientState) (e : String),
        t ≠ "" → base64encode (t ++ ":") = some e →
        mkClient (.objv [("accessToken", t)]) host = .ok s →
        s._authHeader = some ("Basic " ++ e))
    ∧ (∀ (b : String) (host : Option String) (s : ClientState),
        mkClient (.objv [("httpBasic", b)]) host = .ok s →
        s._authHeader = some ("Basic " ++ b)) := by
  refine ⟨?_, ?_, ?_, ?_⟩
  · intro authn host s h headers hmk hah
    obtain ⟨b, hb⟩ := mkClient_authHeader_form authn host s h hmk hah
    have hne : h ≠ "" := by
      rw [hb]
      intro h0
      have hlen := congrArg String.length h0
      rw [String.length_append] at hlen
      rw [show ("Basic ".length) = 6 from rfl, show ("".length) = 0 from rfl] at hlen
      omega
    rw [hah, injectAuthHeader, if_neg hne]
    exact lookup_setHeader headers "Authorization" h
  · intro k host s e hb64 hmk
    rw [mkClient.eq_def] at hmk
    rw [if_neg (by simp [truthyAuthn])] at hmk
    simp only [] at hmk
    rw [if_pos (by simp [List.lookup])] at hmk
    rw [show makeHeaderForUsername ((List.lookup "apiKey" [("apiKey", k)]).getD "")
        = .ok ("Basic " ++ e) from by
      simp only [List.lookup]
      rw [show ("apiKey" == "apiKey") = true from by simp]
      rw [makeHeaderForUsername, Option.getD_some, hb64]] at hmk
    cases hmk
    rfl
  · intro t host s e ht hb64 hmk
    rw [mkClient.eq_def] at hmk
    rw [if_neg (by simp [truthyAuthn])] at hmk
    simp only [] at hmk
    rw [if_neg (by simp [List.lookup])] at hmk
    rw [if_pos (by simp [List.lookup])] at hmk
    rw [show (List.lookup "accessToken" [("accessToken", t)]).getD "" = t from by
      simp [List.lookup]] at hmk
    rw [if_neg ht] at hmk
    rw [show makeHeaderForUsername t = .ok ("Basic " ++ e) from by
      rw [makeHeaderForUsername, hb64]] at hmk
    cases hmk
    rfl
  · intro b host s hmk
    rw [mkClient.eq_def] at hmk
    rw [if_neg (by simp [truthyAuthn])] at hmk
    simp only [] at hmk
    rw [if_neg (by simp [List.lookup])] at hmk
    rw [if_neg (by simp [List.lookup])] at hmk
    rw [if_pos (by simp [List.lookup])] at hmk
    rw [show (List.lookup "httpBasic" [("httpBasic", b)]).getD "" = b from by
      simp [List.lookup]] at hmk
    cases hmk
    rfl

/-- Claim C4 witness at an apiKey client and a caller-supplied
Authorization entry. -/
theorem authHeaderAlwaysDerived_witness :
    (injectAuthHeader (some "Basic S0VZOg==")
      [("Authorization", "caller"), ("Accept", "a")]).lookup "Authorization"
        = some "Basic S0VZOg=="
    ∧ ∃ s, mkClient (.objv [("apiKey", "KEY")]) none = .ok s
        ∧ s._authHeader = some ("Basic " ++ "S0VZOg==") := by
  have hmk : mkClient (.objv [("apiKey", "KEY")]) none
      = .ok ⟨some "Basic S0VZOg==", none, defaultHost⟩ := rfl
  refine ⟨?_, ⟨⟨some "Basic S0VZOg==", none, defaultHost⟩, hmk, ?_⟩⟩
  · exact authHeaderAlwaysDerived.1 (.objv [("apiKey", "KEY")]) none
      ⟨some "Basic S0VZOg==", none, defaultHost⟩ "Basic S0VZOg=="
      [("Authorization", "caller"), ("Accept", "a")] hmk rfl
  · exact authHeaderAlwaysDerived.2.1 "KEY" none
      ⟨some "Basic S0VZOg==", none, defaultHost⟩ "S0VZOg==" rfl hmk

/-- Claim C5: after `logout()` resolves, the credential is cleared
(`authHeader` is null) and the dispatch primitive injects nothing: the
caller's headers pass through unchanged, so a request whose headers carry no
Authorization entry is issued without one. -/
theorem logoutClearsAuthHeader : ∀ (s : ClientState) (response : JsVal)
    (headers : List (String × String)),
    (logout s response).1._authHeader = none
    ∧ injectAuthHeader (logout s response).1._authHeader headers = headers
    ∧ (headers.lookup "Authorization" = none →
        (injectAuthHeader (logout s response).1._authHeader headers).lookup
          "Authorization" = none) := by
  intro s response headers
  exact ⟨rfl, rfl, fun h => h⟩

/-- Claim C5 witness: a logged-out client and a header map without an
Authorization entry. -/
theorem logoutClearsAuthHeader_witness :
    (injectAuthHeader
      (logout ⟨some "Basic S0VZOg==", none, defaultHost⟩ .null).1._authHeader
      [("Accept", "a")]).lookup "Authorization" = none :=
  (logoutClearsAuthHeader ⟨some "Basic S0VZOg==", none, defaultHost⟩ .null
    [("Accept", "a")]).2.2 rfl

/-- Claim C9: `logout()` mutates only `_authHeader` — `_accessToken` and
`host` are untouched — so on an accessToken-constructed client the
`accessToken` getter still returns the (now server-deactivated) token after
logout instead of throwing. -/
theorem logoutFrameEffect :
    (∀ (s : ClientState) (response : JsVal),
      (logout s response).1._authHeader = none
      ∧ (logout s response).1._accessToken = s._accessToken
      ∧ (logout s response).1.host = s.host)
    ∧ (∀ (t : String) (host : Option String) (s : ClientState) (response : JsVal),
        t ≠ "" →
        mkClient (.objv [("accessToken", t)]) host = .ok s →
        getAccessToken (logout s response).1 = .ok t) := by
  constructor
  · intro s response
    exact ⟨rfl, rfl, rfl⟩
  · intro t host s response ht hmk
    rw [mkClient.eq_def] at hmk
    rw [if_neg (by simp [truthyAuthn])] at hmk
    simp only [] at hmk
    rw [if_neg (by simp [List.lookup])] at hmk
    rw [if_pos (by simp [List.lookup])] at hmk
    rw [show (List.lookup "accessToken" [("accessToken", t)]).getD "" = t from by
      simp [List.lookup]] at hmk
    rw [if_neg ht] at hmk
    cases hm : makeHeaderForUsername t with
    | ok h2 =>
        rw [hm] at hmk
        cases hmk
        show (if t = "" then Except.error JsError.noAccessToken else Except.ok t)
          = Except.ok t
        rw [if_neg ht]
    | error e =>
        rw [hm] at hmk
        exact Except.noConfusion hmk

/-- Claim C9 witness at the token `tok`. -/
theorem logoutFrameEffect_witness :
    getAccessToken (logout ⟨some "Basic dG9rOg==", some "tok", defaultHost⟩ .null).1
      = .ok "tok" :=
  logoutFrameEffect.2 "tok" none ⟨some "Basic dG9rOg==", some "tok", defaultHost⟩
    .null (by simp) rfl

/-- Claim C10: an object specifier carrying none of the recognized keys
(`apiKey`, `accessToken`, `httpBasic`) does not throw: the constructor
silently yields an unauthenticated client with a null auth header, and the
dispatch primitive then adds no Authorization header to any request. -/
theorem unrecognizedObjectAuthnSilent :
    ∀ (fields : List (String × String)) (host : Option String)
      (headers : List (String × String)),
    fields.lookup "apiKey" = none →
    fields.lookup "accessToken" = none →
    fields.lookup "httpBasic" = none →
    mkClient (.objv fields) host = .ok ⟨none, none, hostOf host⟩
    ∧ injectAuthHeader (none : Option String) headers = headers
    ∧ (headers.lookup "Authorization" = none →
        (injectAuthHeader (none : Option String) headers).lookup
          "Authorization" = none) := by
  intro fields host headers h1 h2 h3
  refine ⟨?_, rfl, fun h => h⟩
  rw [mkClient.eq_def]
  rw [if_neg (by simp [truthyAuthn])]
  simp only []
  rw [if_neg (by simp [h1]), if_neg (by simp [h2]), if_neg (by simp [h3])]

/-- Claim C10 witness: a lowercase `apikey` key is not recognized. -/
theorem unrecognizedObjectAuthnSilent_witness :
    mkClient (.objv [("apikey", "x")]) none = .ok ⟨none, none, hostOf none⟩
    ∧ (injectAuthHeader (none : Option String) [("Accept", "a")]).lookup
        "Authorization" = none := by
  have h := unrecognizedObjectAuthnSilent [("apikey", "x")] none [("Accept", "a")]
    rfl rfl rfl
  exact ⟨h.1, h.2.2 rfl⟩

/-- Claim C1 (code-bug exhibit): on a single-id fetch the client issues one
request with the id doubled (`d1,d1`), as claimed — but then returns BOTH
entries of the multiget response, a two-element list, although the claim
(and the comment in the code itself) says only the first result is
returned as a one-element list. -/
theorem getDocumentsSingleIdDuplicates :
    getDocuments "v" ["d1"]
        (fun _ => .obj [("documents",
          .arr [.obj [("id", .str "d1")], .obj [("id", .str "d1")]])])
      = (["v2/vaults/v/documents/d1,d1"],
         some (.arr [.obj [("id", .str "d1")], .obj [("id", .str "d1")]]))
    ∧ (JsVal.arr [.obj [("id", .str "d1")], .obj [("id", .str "d1")]])
        ≠ .arr [.obj [("id", .str "d1")]] := by
  refine ⟨rfl, ?_⟩
  intro h
  have hlen := congrArg
    (fun v => match v with | JsVal.arr xs => xs.length | _ => 0) h
  simp at hlen

/-- Claim C2 (code-bug exhibit): a response whose user carries a raw
`attributes` equal to `null` comes back with attributes still `null` — the
truthiness guard skips `null` — although the claim (and the repository's own
test and earlier implementation) require the empty object. -/
theorem readCurrentUserNullAttributesStayNull :
    readCurrentUser (.obj [("user",
        .obj [("id", .str "u1"), ("attributes", .null)])])
      = some (.obj [("id", .str "u1"), ("attributes", .null)])
    ∧ getField (.obj [("id", .str "u1"), ("attributes", .null)]) "attributes"
        ≠ some (.obj []) := by
  refine ⟨rfl, ?_⟩
  rw [show getField (.obj [("id", .str "u1"), ("attributes", .null)]) "attributes"
      = some .null from rfl]
  simp

/-- Claim C3 counterexample: the body `null` is valid JSON, yet the dispatch
neither resolves with the parsed value nor rejects with the malformed or api
error — reading `.result` on `null` throws a TypeError, a fourth outcome. -/
theorem legacyDispatchNullBody :
    performLegacyRequestBody "null" = .jsTypeError
    ∧ jsonParse "null" = some JsVal.null
    ∧ performLegacyRequestBody "null" ≠ .success JsVal.null
    ∧ performLegacyRequestBody "null" ≠ .malformedResponse "null" := by
  refine ⟨rfl, rfl, ?_, ?_⟩
  · intro h
    rw [show performLegacyRequestBody "null" = .jsTypeError from rfl] at h
    exact LegacyOutcome.noConfusion h
  · intro h
    rw [show performLegacyRequestBody "null" = .jsTypeError from rfl] at h
    exact LegacyOutcome.noConfusion h

/-- Claim C3 (amended): for every response body the dispatch primitive
classifies as follows — an unparseable body rejects with the malformed
response error carrying the raw body verbatim; a body parsing to an
envelope whose `result` is `"error"` with a present non-null `error` field
rejects with the api error carrying that error object and the envelope's
`transaction_id` verbatim; a body parsing to anything other than `null`
whose `result` is not the string `"error"` resolves with the parsed value
unmodified; a body parsing to `null` rejects with a TypeError (as does an
error envelope whose `error` field is missing or null). -/
theorem legacyDispatchClassification : ∀ body : String,
    (jsonParse body = none →
      performLegacyRequestBody body = .malformedResponse body)
    ∧ (∀ j e, jsonParse body = some j →
        getField j "result" = some (.str "error") →
        getField j "error" = some e → e ≠ .null →
        performLegacyRequestBody body = .apiError e (getField j "transaction_id"))
    ∧ (∀ j, jsonParse body = some j → j ≠ .null →
        (∀ s, getField j "result" = some (.str s) → s ≠ "error") →
        performLegacyRequestBody body = .success j)
    ∧ (jsonParse body = some .null →
        performLegacyRequestBody body = .jsTypeError)
    ∧ (∀ j, jsonParse body = some j →
        getField j "result" = some (.str "error") →
        (getField j "error" = none ∨ getField j "error" = some .null) →
        performLegacyRequestBody body = .jsTypeError) := by
  intro body
  refine ⟨?_, ?_, ?_, ?_, ?_⟩
  · intro h
    rw [performLegacyRequestBody, h]
  · intro j e hp hres herr hne
    rw [performLegacyRequestBody, hp]
    exact legacyClassify_error j e hres herr hne
  · intro j hp hnull hres
    rw [performLegacyRequestBody, hp]
    exact legacyClassify_success j hnull hres
  · intro hp
    rw [performLegacyRequestBody, hp]
    rfl
  · intro j hp hres herr
    rw [performLegacyRequestBody, hp]
    exact legacyClassify_error_missing j hres herr

/-- Claim C3 witness: one concrete body per classification arm. -/
theorem legacyDispatchClassification_witness :
    performLegacyRequestBody "nope" = .malformedResponse "nope"
    ∧ performLegacyRequestBody (jsonStringify (.obj [("result", .str "error"),
        ("error", .obj [("message", .str "m")]), ("transaction_id", .str "tx1")]))
      = .apiError (.obj [("message", .str "m")]) (some (.str "tx1"))
    ∧ performLegacyRequestBody (jsonStringify (.obj [("result", .str "success")]))
      = .success (.obj [("result", .str "success")])
    ∧ performLegacyRequestBody "null" = .jsTypeError
    ∧ performLegacyRequestBody (jsonStringify (.obj [("result", .str "error")]))
      = .jsTypeError
    ∧ performLegacyRequestBody (jsonStringify (.obj [("result", .str "error"),
        ("error", .null)])) = .jsTypeError := by
  refine ⟨?_, ?_, ?_, ?_, ?_, ?_⟩
  · exact (legacyDispatchClassification "nope").1 rfl
  · exact (legacyDispatchClassification _).2.1
      (.obj [("result", .str "error"), ("error", .obj [("message", .str "m")]),
        ("transaction_id", .str "tx1")])
      (.obj [("message", .str "m")])
      (jsonParse_jsonStringify _) rfl rfl (by simp)
  · exact (legacyDispatchClassification _).2.2.1
      (.obj [("result", .str "success")])
      (jsonParse_jsonStringify _) (by simp)
      (fun s hs => by
        rw [show getField (JsVal.obj [("result", .str "success")]) "result"
            = some (.str "success") from rfl] at hs
        cases hs
        simp)
  · exact (legacyDispatchClassification "null").2.2.2.1 rfl
  · exact (legacyDispatchClassification _).2.2.2.2
      (.obj [("result", .str "error")])
      (jsonParse_jsonStringify _) rfl (Or.inl rfl)
  · exact (legacyDispatchClassification _).2.2.2.2
      (.obj [("result", .str "error"), ("error", .null)])
      (jsonParse_jsonStringify _) rfl (Or.inr rfl)

/-- Claim C6 counterexample: the empty string — a non-null, non-object value
of unrecognized shape — does not make the constructor throw: `!authn`
treats every falsy value as the no-auth marker, so construction succeeds
with a null auth header. -/
theorem constructorEmptyStringNoThrow :
    mkClient (.strv "") none = .ok ⟨none, none, defaultHost⟩
    ∧ mkClient (.strv "") none ≠ .error .configurationError := by
  refine ⟨rfl, ?_⟩
  intro h
  rw [show mkClient (.strv "") none = .ok ⟨none, none, defaultHost⟩ from rfl] at h
  exact Except.noConfusion h

/-- Claim C6 (amended): a truthy non-null non-object specifier (a nonempty
string, a nonzero number, `true`) throws the configuration error; a falsy
specifier (`null`, `undefined`, the empty string, `0`, `false`) silently
yields an unauthenticated client; the recognized object shapes succeed with
the auth header derived synchronously at construction — provided the
credential is Latin1-encodable, and, for the accessToken shape, nonempty. -/
theorem constructorAuthnClassification :
    (∀ (authn : AuthnValue) (host : Option String),
      truthyAuthn authn = true →
      (match authn with | .objv _ => False | _ => True) →
      mkClient authn host = .error .configurationError)
    ∧ (∀ (authn : AuthnValue) (host : Option String),
        truthyAuthn authn = false →
        mkClient authn host = .ok ⟨none, none, hostOf host⟩)
    ∧ (∀ (k : String) (host : Option String) (e : String),
        base64encode (k ++ ":") = some e →
        mkClient (.objv [("apiKey", k)]) host
          = .ok ⟨some ("Basic " ++ e), none, hostOf host⟩)
    ∧ (∀ (t : String) (host : Option String) (e : String),
        t ≠ "" → base64encode (t ++ ":") = some e →
        mkClient (.objv [("accessToken", t)]) host
          = .ok ⟨some ("Basic " ++ e), some t, hostOf host⟩)
    ∧ (∀ (b : String) (host : Option String),
        mkClient (.objv [("httpBasic", b)]) host
          = .ok ⟨some ("Basic " ++ b), none, hostOf host⟩) := by
  refine ⟨?_, ?_, ?_, ?_, ?_⟩
  · intro authn host htr hobj
    rw [mkClient.eq_def, if_neg (by rw [htr]; simp)]
    cases authn with
    | objv fields => exact absurd hobj (by simp)
    | nullv => rfl
    | undef => rfl
    | boolv b => rfl
    | numv n => rfl
    | strv q => rfl
  · intro authn host htr
    rw [mkClient.eq_def, if_pos htr]
  · intro k host e hb64
    rw [mkClient.eq_def]
    rw [if_neg (by simp [truthyAuthn])]
    simp only []
    rw [if_pos (by simp [List.lookup])]
    rw [show makeHeaderForUsername ((List.lookup "apiKey" [("apiKey", k)]).getD "")
        = .ok ("Basic " ++ e) from by
      simp only [List.lookup]
      rw [show ("apiKey" == "apiKey") = true from by simp]
      rw [makeHeaderForUsername, Option.getD_some, hb64]]
  · intro t host e ht hb64
    rw [mkClient.eq_def]
    rw [if_neg (by simp [truthyAuthn])]
    simp only []
    rw [if_neg (by simp [List.lookup])]
    rw [if_pos (by simp [List.lookup])]
    rw [show (List.lookup "accessToken" [("accessToken", t)]).getD "" = t from by
      simp [List.lookup]]
    rw [if_neg ht]
    rw [show makeHeaderForUsername t = .ok ("Basic " ++ e) from by
      rw [makeHeaderForUsername, hb64]]
  · intro b host
    rw [mkClient.eq_def]
    rw [if_neg (by simp [truthyAuthn])]
    simp only []
    rw [if_neg (by simp [List.lookup])]
    rw [if_neg (by simp [List.lookup])]
    rw [if_pos (by simp [List.lookup])]
    rw [show (List.lookup "httpBasic" [("httpBasic", b)]).getD "" = b from by
      simp [List.lookup]]

/-- Claim C6 witness: one concrete specifier per classification arm. -/
theorem constructorAuthnClassification_witness :
    mkClient (.strv "x") none = .error .configurationError
    ∧ mkClient (.numv 0) none = .ok ⟨none, none, hostOf none⟩
    ∧ mkClient (.objv [("apiKey", "KEY")]) none
        = .ok ⟨some ("Basic " ++ "S0VZOg=="), none, hostOf none⟩
    ∧ mkClient (.objv [("accessToken", "tok")]) none
        = .ok ⟨some ("Basic " ++ "dG9rOg=="), some "tok", hostOf none⟩
    ∧ mkClient (.objv [("httpBasic", "RAW")]) none
        = .ok ⟨some ("Basic " ++ "RAW"), none, hostOf none⟩ := by
  refine ⟨?_, ?_, ?_, ?_, ?_⟩
  · exact constructorAuthnClassification.1 (.strv "x") none (by simp [truthyAuthn])
      trivial
  · exact constructorAuthnClassification.2.1 (.numv 0) none rfl
  · exact constructorAuthnClassification.2.2.1 "KEY" none "S0VZOg==" rfl
  · exact constructorAuthnClassification.2.2.2.1 "tok" none "dG9rOg==" (by simp) rfl
  · exact constructorAuthnClassification.2.2.2.2 "RAW" none

/-- Claim C7 counterexample: on the same error envelope the plain dispatch
rejects with an error carrying the transaction id while the
progress-reporting variant rejects without one — the two rejections do not
carry the same information. -/
theorem progressErrorMissingTransactionId :
    legacyClassify (.obj [("result", .str "error"),
        ("error", .obj [("code", .str "C"), ("message", .str "m"),
          ("type", .str "T")]),
        ("transaction_id", .str "tx1")])
      = .apiError (.obj [("code", .str "C"), ("message", .str "m"),
          ("type", .str "T")]) (some (.str "tx1"))
    ∧ progressJsonClassify (.obj [("result", .str "error"),
        ("error", .obj [("code", .str "C"), ("message", .str "m"),
          ("type", .str "T")]),
        ("transaction_id", .str "tx1")])
      = .apiError (.obj [("code", .str "C"), ("message", .str "m"),
          ("type", .str "T")]) none
    ∧ (some (JsVal.str "tx1") : Option JsVal) ≠ none := by
  exact ⟨rfl, rfl, by simp⟩

/-- Claim C7 (amended): on every error envelope both dispatch flavors
reject with the same nested error object — same `{code, message, type}` —
but only the plain dispatch attaches the envelope's `transaction_id`; the
progress variant never sets it. -/
theorem progressErrorParity : ∀ (j e : JsVal),
    getField j "result" = some (.str "error") →
    getField j "error" = some e → e ≠ .null →
    legacyClassify j = .apiError e (getField j "transaction_id")
    ∧ progressJsonClassify j = .apiError e none := by
  intro j e hres herr hne
  exact ⟨legacyClassify_error j e hres herr hne,
    progressJsonClassify_error j e hres herr hne⟩

/-- Claim C7 witness at a concrete error envelope. -/
theorem progressErrorParity_witness :
    legacyClassify (.obj [("result", .str "error"),
        ("error", .obj [("code", .str "C")]), ("transaction_id", .str "tx9")])
      = .apiError (.obj [("code", .str "C")]) (some (.str "tx9"))
    ∧ progressJsonClassify (.obj [("result", .str "error"),
        ("error", .obj [("code", .str "C")]), ("transaction_id", .str "tx9")])
      = .apiError (.obj [("code", .str "C")]) none :=
  progressErrorParity
    (.obj [("result", .str "error"), ("error", .obj [("code", .str "C")]),
      ("transaction_id", .str "tx9")])
    (.obj [("code", .str "C")]) rfl rfl (by simp)

/-- Claim C8 counterexample: for `attrs` holding the string `☃` (a code
point above U+00FF) the encoding step itself throws — the base-64 encoder
rejects the non-Latin1 stringification — so decode∘encode does not return
`attrs`; nothing is produced at all. -/
theorem attrsEncodeSnowmanThrows :
    attrsEncode (.obj [("a", .str "☃")]) = none
    ∧ (attrsEncode (.obj [("a", .str "☃")])).bind attrsDecode
        ≠ some (.obj [("a", .str "☃")]) := by
  refine ⟨rfl, ?_⟩
  rw [show attrsEncode (.obj [("a", .str "☃")]) = none from rfl]
  simp

/-- Claim C8 (amended): for every JSON value whose stringification stays in
the Latin1 range the base-64 encoder accepts, decoding the encoding
(`base64.decode` then `JSON.parse`) recovers the value exactly. -/
theorem attrsRoundTripLatin1 (v : JsVal)
    (h : ((jsonStringify v).data.all (fun c => c.toNat < 256)) = true) :
    (attrsEncode v).bind attrsDecode = some v :=
  attrsDecode_attrsEncode v h

/-- Claim C8 witness at a small Latin1 attributes object. -/
theorem attrsRoundTripLatin1_witness :
    (attrsEncode (.obj [("a", .num 1)])).bind attrsDecode
      = some (.obj [("a", .num 1)]) :=
  attrsRoundTripLatin1 (.obj [("a", .num 1)]) (by decide)

end TVS
